import Mathlib

/-!
Shallow embedding of the core of the frida-node binding
(src/runtime.cc, src/uv_context.cc, src/session.cc) and proofs of the
specification claims about it.
-/

namespace Frida

/-!
Runtime container teardown (runtime.cc, Runtime destructor).
The destructor body is a straight-line sequence of statements; we embed
it as the list of teardown steps in the order the source executes them:
json_parse_.Reset(); json_stringify_.Reset(); json_module_.Reset();
g_hash_table_unref(data_); delete glib_context_; delete uv_context_;
-/

/-- One statement of the Runtime destructor body. -/
inductive TeardownStep where
  | resetJsonParse
  | resetJsonStringify
  | resetJsonModule
  | unrefDataRegistry
  | deleteGLibContext
  | deleteUVContext
deriving BEq

/-- The statements of the Runtime destructor, in source order. -/
def runtimeDestructorSteps : List TeardownStep :=
  [TeardownStep.resetJsonParse,
   TeardownStep.resetJsonStringify,
   TeardownStep.resetJsonModule,
   TeardownStep.unrefDataRegistry,
   TeardownStep.deleteGLibContext,
   TeardownStep.deleteUVContext]

/-!
UVContext usage counter (uv_context.cc, IncreaseUsage and DecreaseUsage).
The context holds an integer usage_count_ and the uv async handle, which
is either referenced against the loop or not.  The constructor calls
uv_async_init followed by uv_unref, so the initial state has count 0 and
the handle unreferenced.
-/

/-- A reference-count action on the uv async handle. -/
inductive UVRefOp where
  | ref
  | unref

/-- Observable state of the usage counter and the async handle. -/
structure UVUsageState where
  usage_count : Int
  async_referenced : Bool

/-- State after the UVContext constructor: counter zero, handle
unreferenced (uv_async_init then uv_unref). -/
def uvUsageInit : UVUsageState := ⟨0, false⟩

/-- IncreaseUsage: pre-increment the counter; when the new value is 1,
call uv_ref on the async handle.  Returns the new state and the list of
uv ref operations performed. -/
def increaseUsage (s : UVUsageState) : UVUsageState × List UVRefOp :=
  let n := s.usage_count + 1
  if n = 1 then (⟨n, true⟩, [UVRefOp.ref])
  else (⟨n, s.async_referenced⟩, [])

/-- DecreaseUsage: post-decrement the counter; when the old value was 1,
call uv_unref on the async handle.  Returns the new state and the list
of uv ref operations performed. -/
def decreaseUsage (s : UVUsageState) : UVUsageState × List UVRefOp :=
  if s.usage_count = 1 then (⟨s.usage_count - 1, false⟩, [UVRefOp.unref])
  else (⟨s.usage_count - 1, s.async_referenced⟩, [])

/-- States reachable from the constructor state by IncreaseUsage and
DecreaseUsage calls, where DecreaseUsage is only invoked to balance an
earlier IncreaseUsage (the counter is positive), matching the usage
state machine of the specification. -/
inductive UVUsageReachable : UVUsageState → Prop where
  | init : UVUsageReachable uvUsageInit
  | inc {s : UVUsageState} :
      UVUsageReachable s → UVUsageReachable (increaseUsage s).1
  | dec {s : UVUsageState} :
      UVUsageReachable s → 0 < s.usage_count →
      UVUsageReachable (decreaseUsage s).1

/-- Core invariant: in every reachable state the counter is nonnegative
and the handle is referenced exactly when the counter is positive. -/
theorem uvUsage_invariant {s : UVUsageState} (h : UVUsageReachable s) :
    0 ≤ s.usage_count ∧ (s.async_referenced = true ↔ 0 < s.usage_count) := by
  induction h with
  | init =>
    exact ⟨Int.le_refl 0,
      Iff.intro (fun hf => Bool.noConfusion hf)
        (fun hlt => absurd hlt (Int.lt_irrefl 0))⟩
  | @inc s h ih =>
    obtain ⟨hnn, hiff⟩ := ih
    by_cases hz : s.usage_count + 1 = 1
    · simp only [increaseUsage]
      rw [if_pos hz]
      refine ⟨?_, Iff.intro (fun _ => ?_) (fun _ => rfl)⟩
      · show 0 ≤ s.usage_count + 1
        omega
      · show (0 : Int) < s.usage_count + 1
        omega
    · simp only [increaseUsage]
      rw [if_neg hz]
      have hpos : 0 < s.usage_count := by omega
      refine ⟨?_, Iff.intro (fun _ => ?_) (fun _ => hiff.mpr hpos)⟩
      · show 0 ≤ s.usage_count + 1
        omega
      · show (0 : Int) < s.usage_count + 1
        omega
  | @dec s h hpos ih =>
    obtain ⟨hnn, hiff⟩ := ih
    by_cases hz : s.usage_count = 1
    · simp only [decreaseUsage]
      rw [if_pos hz]
      refine ⟨?_, Iff.intro (fun hf => Bool.noConfusion hf) (fun hlt => ?_)⟩
      · show 0 ≤ s.usage_count - 1
        omega
      · exact absurd hlt (show ¬ (0 : Int) < s.usage_count - 1 by omega)
    · simp only [decreaseUsage]
      rw [if_neg hz]
      have h1 : (0 : Int) < s.usage_count - 1 := by omega
      refine ⟨?_, Iff.intro (fun _ => h1) (fun _ => hiff.mpr hpos)⟩
      · show 0 ≤ s.usage_count - 1
        omega

/-- C1, counterexample: in the Runtime destructor as written the
script-world (UV) context is NOT destroyed before the native-world
(GLib) context; the source deletes glib_context_ first. -/
theorem claim_c1_counterexample :
    ¬ (runtimeDestructorSteps.indexOf TeardownStep.deleteUVContext <
       runtimeDestructorSteps.indexOf TeardownStep.deleteGLibContext) := by
  decide

/-- C1, amended: at destruction of the runtime container, after the JSON
handles are released and the registry is drained, the two thread-world
contexts are destroyed in the fixed order: the native-world (GLib)
context is destroyed before the script-world (UV) context. -/
theorem claim_c1_teardown_order :
    runtimeDestructorSteps.indexOf TeardownStep.resetJsonModule <
      runtimeDestructorSteps.indexOf TeardownStep.unrefDataRegistry ∧
    runtimeDestructorSteps.indexOf TeardownStep.unrefDataRegistry <
      runtimeDestructorSteps.indexOf TeardownStep.deleteGLibContext ∧
    runtimeDestructorSteps.indexOf TeardownStep.deleteGLibContext <
      runtimeDestructorSteps.indexOf TeardownStep.deleteUVContext := by
  decide

/-- C2: in every reachable state of the usage counter the async handle
is unreferenced iff the counter is zero and referenced iff it is
positive; the handle starts unreferenced with the counter at zero; the
0-to-1 increase references the handle exactly once; the 1-to-0 decrease
unreferences it exactly once; every other increase or decrease performs
no uv ref operation and leaves the referenced state unchanged. -/
theorem claim_c2_usage_handle_invariant {s : UVUsageState}
    (h : UVUsageReachable s) :
    ((s.async_referenced = false ↔ s.usage_count = 0) ∧
     (s.async_referenced = true ↔ 0 < s.usage_count)) ∧
    (uvUsageInit.async_referenced = false ∧ uvUsageInit.usage_count = 0) ∧
    (s.usage_count = 0 → (increaseUsage s).2 = [UVRefOp.ref]) ∧
    (0 < s.usage_count → (increaseUsage s).2 = [] ∧
      (increaseUsage s).1.async_referenced = s.async_referenced) ∧
    (s.usage_count = 1 → (decreaseUsage s).2 = [UVRefOp.unref]) ∧
    (1 < s.usage_count → (decreaseUsage s).2 = [] ∧
      (decreaseUsage s).1.async_referenced = s.async_referenced) := by
  obtain ⟨hnn, hiff⟩ := uvUsage_invariant h
  refine ⟨⟨Iff.intro (fun hfalse => ?_) (fun hzero => ?_), hiff⟩, ⟨rfl, rfl⟩,
    fun hzero => ?_, fun hpos => ?_, fun hone => ?_, fun hgt => ?_⟩
  · by_contra hne
    have hpos : 0 < s.usage_count := by omega
    have htrue := hiff.mpr hpos
    rw [hfalse] at htrue
    exact Bool.noConfusion htrue
  · cases hb : s.async_referenced with
    | false => rfl
    | true => exact absurd (hiff.mp hb) (by omega)
  · simp only [increaseUsage]
    rw [if_pos (show s.usage_count + 1 = 1 by omega)]
  · simp only [increaseUsage]
    rw [if_neg (show ¬ s.usage_count + 1 = 1 by omega)]
    exact ⟨rfl, rfl⟩
  · simp only [decreaseUsage]
    rw [if_pos hone]
  · simp only [decreaseUsage]
    rw [if_neg (show ¬ s.usage_count = 1 by omega)]
    exact ⟨rfl, rfl⟩

/-- C2, witness: the invariant instantiated at the reachable state
obtained by one IncreaseUsage from the constructor state. -/
theorem claim_c2_witness :
    ((increaseUsage uvUsageInit).1.async_referenced = true ↔
      0 < (increaseUsage uvUsageInit).1.usage_count) :=
  ((claim_c2_usage_handle_invariant
      (UVUsageReachable.inc UVUsageReachable.init)).1).2

/-!
UVContext Perform (uv_context.cc).  Perform schedules a wrapper closure
that first runs f, then takes the lock, sets the finished flag, signals
the condition variable and releases the lock; meanwhile the calling
thread takes the lock and waits on the condition variable until the
flag is set, then returns.  We embed the two threads as program
counters and the flag as shared state, and let the two threads
interleave freely.
-/

/-- Program counter of the thread that called Perform. -/
inductive PerformCallerPC where
  | waiting
  | returned

/-- Program counter of the destination thread running the wrapper
closure scheduled by Perform. -/
inductive PerformDestPC where
  | notStarted
  | ranWork
  | signalled

/-- Joint state of a Perform call: both program counters and the shared
finished flag. -/
structure PerformState where
  caller : PerformCallerPC
  dest : PerformDestPC
  finished : Bool

/-- State when Perform has scheduled the wrapper and starts waiting:
the flag is initialised to false and the work has not run. -/
def performInit : PerformState :=
  ⟨PerformCallerPC.waiting, PerformDestPC.notStarted, false⟩

/-- One interleaving step of the two threads.  The destination thread
runs f to completion and only afterwards sets the flag and signals; the
caller leaves its wait loop only when it observes the flag set. -/
inductive PerformStep : PerformState → PerformState → Prop where
  | runWork {c : PerformCallerPC} {fin : Bool} :
      PerformStep ⟨c, PerformDestPC.notStarted, fin⟩
        ⟨c, PerformDestPC.ranWork, fin⟩
  | setFinishedAndSignal {c : PerformCallerPC} {fin : Bool} :
      PerformStep ⟨c, PerformDestPC.ranWork, fin⟩
        ⟨c, PerformDestPC.signalled, true⟩
  | callerReturn {d : PerformDestPC} :
      PerformStep ⟨PerformCallerPC.waiting, d, true⟩
        ⟨PerformCallerPC.returned, d, true⟩

/-- States reachable from the start of a Perform call by any
interleaving of the two threads. -/
inductive PerformReachable : PerformState → Prop where
  | init : PerformReachable performInit
  | step {s t : PerformState} :
      PerformReachable s → PerformStep s t → PerformReachable t

/-- C3: in every reachable interleaving of a cross-thread Perform call,
if the caller has returned then the destination thread has fully
executed f and afterwards set the finished flag and signalled; the flag
is only ever set after f has completed. -/
theorem claim_c3_perform_blocks_until_done {s : PerformState}
    (h : PerformReachable s) :
    (s.finished = true → s.dest = PerformDestPC.signalled) ∧
    (s.caller = PerformCallerPC.returned →
      s.dest = PerformDestPC.signalled ∧ s.finished = true) := by
  induction h with
  | init =>
    exact ⟨fun hf => Bool.noConfusion hf,
      fun hr => PerformCallerPC.noConfusion hr⟩
  | step h hstep ih =>
    cases hstep with
    | runWork =>
      obtain ⟨ihfin, ihret⟩ := ih
      exact ⟨fun hf =>
          absurd (ihfin hf) (fun hh => PerformDestPC.noConfusion hh),
        fun hr =>
          absurd (ihret hr).1 (fun hh => PerformDestPC.noConfusion hh)⟩
    | setFinishedAndSignal =>
      exact ⟨fun _ => rfl, fun _ => ⟨rfl, rfl⟩⟩
    | callerReturn =>
      obtain ⟨ihfin, _⟩ := ih
      have hd := ihfin rfl
      exact ⟨fun _ => hd, fun _ => ⟨hd, rfl⟩⟩

/-- C3, witness: the property instantiated at the reachable state in
which the work ran, the flag was set and the caller returned. -/
theorem claim_c3_witness :
    (PerformState.mk PerformCallerPC.returned PerformDestPC.signalled
        true).dest = PerformDestPC.signalled ∧
    (PerformState.mk PerformCallerPC.returned PerformDestPC.signalled
        true).finished = true :=
  (claim_c3_perform_blocks_until_done
    (PerformReachable.step
      (PerformReachable.step
        (PerformReachable.step PerformReachable.init PerformStep.runWork)
        PerformStep.setFinishedAndSignal)
      PerformStep.callerReturn)).2 rfl

/-!
UVContext Schedule and ProcessPending (uv_context.cc).  Schedule takes
the lock, appends the work item to the tail of the pending list
(g_slist_append) and releases the lock, then calls uv_async_send.
ProcessPending takes the lock and, while the pending list is nonempty,
pops the head, releases the lock, executes the item, reacquires the
lock and re-checks; finally it releases the lock.  A work item may
itself call Schedule re-entrantly; we embed a work item as a tree whose
children are the items it schedules, in order, while it executes.
-/

/-- A unit of work posted to the context.  The first field is an
identity tag; the second lists the items this work re-entrantly
schedules, in order, while it runs. -/
inductive Work where
  | mk : Nat → List Work → Work

/-- The items a work item re-entrantly schedules while it runs. -/
def Work.nested : Work → List Work
  | Work.mk _ l => l

/-- Size of a work tree: itself plus all transitively scheduled items. -/
def Work.size : Work → Nat
  | Work.mk _ l => 1 + (l.attach.map (fun x => Work.size x.1)).sum
decreasing_by
  have h := List.sizeOf_lt_of_mem x.2
  simp only [Work.mk.sizeOf_spec]
  omega

/-- Total size of a pending queue, used as a fuel bound for the drain. -/
def queueSize (q : List Work) : Nat := (q.map Work.size).sum

theorem Work.size_mk (i : Nat) (l : List Work) :
    Work.size (Work.mk i l) = 1 + (l.map Work.size).sum := by
  simp [Work.size, List.attach_map_val]

theorem Work.size_pos (w : Work) : 1 ≤ Work.size w := by
  cases w with
  | mk i l =>
    rw [Work.size_mk]
    omega

theorem queueSize_cons (w : Work) (q : List Work) :
    queueSize (w :: q) = Work.size w + queueSize q := by
  simp [queueSize]

/-- Popping the head and appending the items it schedules strictly
shrinks the queue measure. -/
theorem queueSize_drop_head (w : Work) (rest : List Work) :
    queueSize (rest ++ w.nested) < queueSize (w :: rest) := by
  cases w with
  | mk i l =>
    simp [queueSize, Work.size_mk, Work.nested]
    omega

/-- Schedule: the effect on the pending queue is appending the item at
the tail. -/
def schedule (q : List Work) (w : Work) : List Work := q ++ [w]

/-- One drain loop bounded by a fuel: pop the head, run it (which
appends the items it schedules to the tail), repeat until the queue is
empty or the fuel runs out.  The queue measure shrinks at every step,
so fuel queueSize q always suffices. -/
def drainFuel : Nat → List Work → List Work
  | 0, _ => []
  | _ + 1, [] => []
  | fuel + 1, w :: rest => w :: drainFuel fuel (rest ++ w.nested)

/-- The order in which ProcessPending executes work items, starting
from pending queue q: pop the head, run it (which appends the items it
schedules to the tail), repeat until the queue is empty. -/
def processPendingOrder (q : List Work) : List Work :=
  drainFuel (queueSize q) q

/-- Every item in the pending queue is executed by a sufficiently
fuelled drain, which preserves the relative order of the items. -/
theorem drainFuel_sublist (fuel : Nat) :
    ∀ q : List Work, queueSize q ≤ fuel →
      List.Sublist q (drainFuel fuel q) := by
  induction fuel with
  | zero =>
    intro q hq
    cases q with
    | nil => exact List.nil_sublist _
    | cons w rest =>
      rw [queueSize_cons] at hq
      exact absurd hq (by have := Work.size_pos w; omega)
  | succ fuel ih =>
    intro q hq
    cases q with
    | nil => exact List.nil_sublist _
    | cons w rest =>
      have hsz : queueSize (rest ++ w.nested) ≤ fuel := by
        have h1 := queueSize_drop_head w rest
        omega
      have hrest : List.Sublist rest (rest ++ w.nested) :=
        List.sublist_append_left rest w.nested
      exact List.Sublist.cons₂ w (hrest.trans (ih (rest ++ w.nested) hsz))

/-- A sufficiently fuelled drain of items that schedule nothing
executes exactly the queue, head first. -/
theorem drainFuel_no_reentry (fuel : Nat) :
    ∀ q : List Work, queueSize q ≤ fuel → (∀ w ∈ q, w.nested = []) →
      drainFuel fuel q = q := by
  induction fuel with
  | zero =>
    intro q hq _
    cases q with
    | nil => rfl
    | cons w rest =>
      rw [queueSize_cons] at hq
      exact absurd hq (by have := Work.size_pos w; omega)
  | succ fuel ih =>
    intro q hq hall
    cases q with
    | nil => rfl
    | cons w rest =>
      have hw : w.nested = [] := hall w (List.mem_cons_self w rest)
      have h1 : queueSize rest ≤ fuel := by
        have h2 := Work.size_pos w
        rw [queueSize_cons] at hq
        omega
      have ihr := ih rest h1 (fun v hv => hall v (List.mem_cons_of_mem w hv))
      show w :: drainFuel fuel (rest ++ w.nested) = w :: rest
      rw [hw, List.append_nil, ihr]

/-- C4: Schedule appends each item to the tail of the queue, so a
sequence of Schedule calls builds the queue in call order; the drain
pops from the head and preserves the relative order of the scheduled
items, so an item scheduled earlier executes before one scheduled
later; when no item re-entrantly schedules, the execution order is
exactly the schedule order. -/
theorem claim_c4_fifo_order (fs : List Work) :
    List.foldl schedule [] fs = fs ∧
    List.Sublist fs (processPendingOrder fs) ∧
    ((∀ w ∈ fs, w.nested = []) → processPendingOrder fs = fs) := by
  refine ⟨?_, drainFuel_sublist (queueSize fs) fs (Nat.le_refl _),
    fun hall => drainFuel_no_reentry (queueSize fs) fs (Nat.le_refl _) hall⟩
  have hgen : ∀ (acc : List Work), List.foldl schedule acc fs = acc ++ fs := by
    induction fs with
    | nil => simp
    | cons f fs ih =>
      intro acc
      simp [schedule, ih]
  simpa using hgen []

/-- C4, witness: the FIFO property instantiated at a concrete two-item
schedule sequence with no re-entrant scheduling. -/
theorem claim_c4_witness :
    processPendingOrder [Work.mk 0 [], Work.mk 1 []] =
      [Work.mk 0 [], Work.mk 1 []] :=
  (claim_c4_fifo_order [Work.mk 0 [], Work.mk 1 []]).2.2
    (by intro w hw; simp at hw; rcases hw with h | h <;> subst h <;> rfl)

/-!
Event-level embedding of Schedule and ProcessPending, used to check the
locking discipline of the drain loop.  Each mutex and queue action is
an event; a schedule performed re-entrantly by a running work item
contributes its own lock, append, unlock and async-send events.
-/

/-- One observable action of Schedule or ProcessPending. -/
inductive UVEvent where
  | lockAcquire
  | lockRelease
  | popHead (w : Work)
  | execWork (w : Work)
  | appendTail (w : Work)
  | asyncSend

/-- Events of one Schedule call: lock, append at the tail, unlock,
uv_async_send. -/
def scheduleTrace (w : Work) : List UVEvent :=
  [UVEvent.lockAcquire, UVEvent.appendTail w, UVEvent.lockRelease,
   UVEvent.asyncSend]

/-- Events of the ProcessPending while loop, entered with the lock
held and bounded by a fuel (fuel queueSize q always suffices): pop the
head, unlock, execute the item (emitting the schedule events of the
items it posts re-entrantly), re-lock and re-check; when the queue is
observed empty, unlock and return. -/
def drainLoopTraceFuel : Nat → List Work → List UVEvent
  | 0, _ => [UVEvent.lockRelease]
  | _ + 1, [] => [UVEvent.lockRelease]
  | fuel + 1, w :: rest =>
    UVEvent.popHead w :: UVEvent.lockRelease :: UVEvent.execWork w ::
      ((w.nested.map scheduleTrace).flatten ++
        (UVEvent.lockAcquire :: drainLoopTraceFuel fuel (rest ++ w.nested)))

/-- Events of one ProcessPending call on pending queue q: take the
lock, then run the while loop. -/
def processPendingTrace (q : List Work) : List UVEvent :=
  UVEvent.lockAcquire :: drainLoopTraceFuel (queueSize q) q

/-- Whether the context mutex is held after an event. -/
def updateHeld (held : Bool) : UVEvent → Bool
  | UVEvent.lockAcquire => true
  | UVEvent.lockRelease => false
  | _ => held

/-- Pair each event with whether the mutex is held just before it. -/
def annotateHeld (held : Bool) : List UVEvent → List (UVEvent × Bool)
  | [] => []
  | e :: es => (e, held) :: annotateHeld (updateHeld held e) es

/-- Whether the mutex is held after a sequence of events. -/
def heldAfter (held : Bool) (es : List UVEvent) : Bool :=
  es.foldl updateHeld held

/-- Locking discipline for one annotated event: queue accesses happen
with the mutex held, work items execute with the mutex released, and
the mutex is never acquired while already held. -/
def okEvent : UVEvent × Bool → Bool
  | (UVEvent.execWork _, held) => !held
  | (UVEvent.popHead _, held) => held
  | (UVEvent.appendTail _, held) => held
  | (UVEvent.lockAcquire, held) => !held
  | _ => true

/-- The work items executed in an event sequence, in order. -/
def execList (es : List UVEvent) : List Work :=
  es.filterMap (fun e =>
    match e with
    | UVEvent.execWork w => some w
    | _ => none)

theorem annotateHeld_append (h : Bool) (xs ys : List UVEvent) :
    annotateHeld h (xs ++ ys) =
      annotateHeld h xs ++ annotateHeld (heldAfter h xs) ys := by
  induction xs generalizing h with
  | nil => simp [annotateHeld, heldAfter]
  | cons e es ih => simp [annotateHeld, heldAfter, ih]

theorem heldAfter_append (h : Bool) (xs ys : List UVEvent) :
    heldAfter h (xs ++ ys) = heldAfter (heldAfter h xs) ys := by
  simp [heldAfter, List.foldl_append]

theorem execList_append (xs ys : List UVEvent) :
    execList (xs ++ ys) = execList xs ++ execList ys := by
  simp [execList]

/-- The schedule events emitted by a running work item respect the
locking discipline when entered unlocked, end unlocked, and execute
nothing themselves. -/
theorem schedulesTrace_ok (ws : List Work) :
    (∀ p ∈ annotateHeld false ((ws.map scheduleTrace).flatten),
      okEvent p = true) ∧
    heldAfter false ((ws.map scheduleTrace).flatten) = false ∧
    execList ((ws.map scheduleTrace).flatten) = [] := by
  induction ws with
  | nil => simp [annotateHeld, heldAfter, execList]
  | cons w ws ih =>
    obtain ⟨ih1, ih2, ih3⟩ := ih
    have hann : annotateHeld false (scheduleTrace w) =
        [(UVEvent.lockAcquire, false), (UVEvent.appendTail w, true),
         (UVEvent.lockRelease, true), (UVEvent.asyncSend, false)] := rfl
    have hheld : heldAfter false (scheduleTrace w) = false := rfl
    have hexec : execList (scheduleTrace w) = [] := rfl
    refine ⟨?_, ?_, ?_⟩
    · intro p hp
      rw [List.map_cons, List.flatten_cons, annotateHeld_append, hheld,
        hann] at hp
      rcases List.mem_append.mp hp with hp | hp
      · simp at hp
        rcases hp with rfl | rfl | rfl | rfl <;> rfl
      · exact ih1 p hp
    · rw [List.map_cons, List.flatten_cons, heldAfter_append, hheld]
      exact ih2
    · rw [List.map_cons, List.flatten_cons, execList_append, hexec, ih3]
      rfl

/-- The drain loop entered with the lock held respects the locking
discipline, leaves the lock released, and executes exactly the items
the fuelled drain pops. -/
theorem drainLoopTraceFuel_ok (fuel : Nat) :
    ∀ q : List Work,
      (∀ p ∈ annotateHeld true (drainLoopTraceFuel fuel q),
        okEvent p = true) ∧
      heldAfter true (drainLoopTraceFuel fuel q) = false ∧
      execList (drainLoopTraceFuel fuel q) = drainFuel fuel q := by
  induction fuel with
  | zero =>
    intro q
    refine ⟨?_, rfl, ?_⟩
    · intro p hp
      cases hp with
      | head => rfl
      | tail _ hp2 => cases hp2
    · cases q <;> rfl
  | succ fuel ih =>
    intro q
    cases q with
    | nil =>
      refine ⟨?_, rfl, rfl⟩
      intro p hp
      cases hp with
      | head => rfl
      | tail _ hp2 => cases hp2
    | cons w rest =>
      obtain ⟨ih1, ih2, ih3⟩ := ih (rest ++ w.nested)
      obtain ⟨hs1, hs2, hs3⟩ := schedulesTrace_ok w.nested
      refine ⟨?_, ?_, ?_⟩
      · intro p hp
        simp only [drainLoopTraceFuel, annotateHeld, updateHeld,
          annotateHeld_append, hs2, List.mem_cons, List.mem_append] at hp
        rcases hp with rfl | rfl | rfl | hp | rfl | hp
        · rfl
        · rfl
        · rfl
        · exact hs1 p hp
        · rfl
        · exact ih1 p hp
      · simp only [drainLoopTraceFuel, heldAfter, List.foldl_cons,
          updateHeld, List.foldl_append]
        exact ih2
      · simp only [drainLoopTraceFuel, execList, List.filterMap_cons,
          List.filterMap_append]
        have hs3f : List.filterMap (fun e =>
            match e with
            | UVEvent.execWork w => some w
            | _ => none) ((w.nested.map scheduleTrace).flatten) = [] := hs3
        rw [hs3f]
        simp only [drainFuel]
        have ih3f : List.filterMap (fun e =>
            match e with
            | UVEvent.execWork w => some w
            | _ => none) (drainLoopTraceFuel fuel (rest ++ w.nested)) =
            drainFuel fuel (rest ++ w.nested) := ih3
        rw [ih3f]
        simp

/-- Every item that a sufficiently fuelled drain pops has all the items
it re-entrantly schedules popped by the same drain. -/
theorem drainFuel_nested_mem (fuel : Nat) :
    ∀ (q : List Work) (w : Work), queueSize q ≤ fuel →
      w ∈ drainFuel fuel q → ∀ v ∈ w.nested, v ∈ drainFuel fuel q := by
  induction fuel with
  | zero =>
    intro q w hq hw v hv
    cases q with
    | nil => cases hw
    | cons u rest =>
      rw [queueSize_cons] at hq
      exact absurd hq (by have := Work.size_pos u; omega)
  | succ fuel ih =>
    intro q w hq hw v hv
    cases q with
    | nil => cases hw
    | cons u rest =>
      have hsz : queueSize (rest ++ u.nested) ≤ fuel := by
        have h1 := queueSize_drop_head u rest
        omega
      rcases List.mem_cons.mp hw with heq | hw2
      · subst heq
        show v ∈ w :: drainFuel fuel (rest ++ w.nested)
        exact List.mem_cons_of_mem _
          ((drainFuel_sublist fuel (rest ++ w.nested) hsz).subset
            (List.mem_append_right rest hv))
      · show v ∈ u :: drainFuel fuel (rest ++ u.nested)
        exact List.mem_cons_of_mem _ (ih (rest ++ u.nested) w hsz hw2 v hv)

/-- Every item that a drained item re-entrantly schedules is itself
drained in the same ProcessPending invocation. -/
theorem drain_nested_mem {q : List Work} {w : Work}
    (hw : w ∈ processPendingOrder q) {v : Work} (hv : v ∈ w.nested) :
    v ∈ processPendingOrder q :=
  drainFuel_nested_mem (queueSize q) q w (Nat.le_refl _) hw v hv

/-- C5: a ProcessPending invocation takes the lock, pops each item from
the head under the lock, releases the lock before executing the item,
reacquires it afterwards, and finishes with the lock released once the
queue is observed empty; no work item executes while the lock is held,
the lock is never taken while already held (so a running item may call
Schedule without deadlock), the executed items are exactly the FIFO
drain of the queue, and an item scheduled re-entrantly by a running
item is executed in the same invocation. -/
theorem claim_c5_drain_loop (q : List Work) :
    (∀ p ∈ annotateHeld false (processPendingTrace q), okEvent p = true) ∧
    heldAfter false (processPendingTrace q) = false ∧
    execList (processPendingTrace q) = processPendingOrder q ∧
    (∀ w ∈ processPendingOrder q, ∀ v ∈ w.nested,
      v ∈ processPendingOrder q) := by
  obtain ⟨h1, h2, h3⟩ := drainLoopTraceFuel_ok (queueSize q) q
  refine ⟨?_, ?_, ?_, ?_⟩
  · intro p hp
    simp only [processPendingTrace, annotateHeld, updateHeld,
      List.mem_cons] at hp
    rcases hp with rfl | hp
    · rfl
    · exact h1 p hp
  · simp only [processPendingTrace, heldAfter, List.foldl_cons,
      updateHeld]
    exact h2
  · simp only [processPendingTrace, execList, List.filterMap_cons]
    exact h3
  · intro w hw v hv
    exact drain_nested_mem hw hv

/-!
Script-visible values and the Session bound methods (session.cc).
A script value is embedded by the discriminations the binding performs
on it (IsNumber, IsString, IsNull, IsExternal); numbers are embedded by
the integer the binding extracts via ToInteger()->Value().
-/

/-- A script-runtime value as discriminated by the binding. -/
inductive JsValue where
  | undefined
  | null
  | boolean (b : Bool)
  | number (n : Int)
  | str (s : String)
  | external (handle : Nat)
  | object (id : Nat)

def JsValue.isNumber : JsValue → Bool
  | JsValue.number _ => true
  | _ => false

def JsValue.isString : JsValue → Bool
  | JsValue.str _ => true
  | _ => false

def JsValue.isNull : JsValue → Bool
  | JsValue.null => true
  | _ => false

def JsValue.isExternal : JsValue → Bool
  | JsValue.external _ => true
  | _ => false

/-- The integer a ToInteger()->Value() call extracts from a number. -/
def JsValue.toIntegerValue : JsValue → Int
  | JsValue.number n => n
  | _ => 0

/-- The UTF-8 copy the binding takes of a string value. -/
def JsValue.asString : JsValue → String
  | JsValue.str s => s
  | _ => ""

/-- The payload of an external (opaque handle-carrier) value. -/
def externalPayload : JsValue → Nat
  | JsValue.external h => h
  | _ => 0

/-- The C cast static_cast to guint16 of an int64 value: reduction
modulo 2 to the 16, represented in 0..65535. -/
def guint16_cast (n : Int) : Nat := (n % 65536).toNat

/-- An operation descriptor created by a Session method and scheduled
on the native-world (GLib) context, with the inputs its Begin step
hands to the native entry point. -/
inductive SessionOp where
  | enableDebuggerOp (port : Nat)
  | disableDebuggerOp
  | detachOp
  | createScriptOp (name : Option String) (source : String)

/-- Outcome of a bound method call: the message of the type error it
throws synchronously, if any; the operation descriptors it creates and
schedules on the native context; and whether it returns a promise. -/
structure MethodOutcome where
  thrown : Option String
  scheduled : List SessionOp
  promise : Bool

/-- Session::EnableDebugger: if fewer than one argument or the first
argument is not a number, throw a type error and return; otherwise cast
the argument through ToInteger to guint16 and schedule an
EnableDebuggerOperation carrying that port. -/
def Session.enableDebugger (args : List JsValue) : MethodOutcome :=
  if args.length < 1 ∨ ¬(args.getD 0 JsValue.undefined).isNumber then
    MethodOutcome.mk (some "Bad argument, expected port number") [] false
  else
    MethodOutcome.mk none
      [SessionOp.enableDebuggerOp
        (guint16_cast (args.getD 0 JsValue.undefined).toIntegerValue)]
      true

/-- Session::CreateScript: if fewer than two arguments, or the first is
neither a string nor null, or the second is not a string, throw a type
error and return; otherwise the name is the UTF-8 copy of the first
argument when it is a string and NULL when it is null, and a
CreateScriptOperation with that name and the UTF-8 copy of the source
is scheduled. -/
def Session.createScript (args : List JsValue) : MethodOutcome :=
  let a0 := args.getD 0 JsValue.undefined
  let a1 := args.getD 1 JsValue.undefined
  if args.length < 2 ∨ ¬(a0.isString ∨ a0.isNull) ∨ ¬a1.isString then
    MethodOutcome.mk (some "Bad argument, expected string|null and string")
      [] false
  else
    MethodOutcome.mk none
      [SessionOp.createScriptOp
        (if a0.isString then some a0.asString else none) a1.asString]
      true

/-- Outcome of invoking the Session constructor callback. -/
inductive ConstructOutcome where
  | typeErrorThrown (msg : String)
  | wrapped (handle : Nat)
  | forwardedConstruct (argc : Nat)

/-- Session::New(FunctionCallbackInfo): on a construct call, unless
there is exactly one argument and it is an External, throw a type error
and create no wrapper; otherwise wrap the External payload.  A plain
call re-invokes the callee as a construct call with zero arguments. -/
def Session.construct (isConstructCall : Bool)
    (args : List JsValue) : ConstructOutcome :=
  if isConstructCall then
    if args.length ≠ 1 ∨ ¬(args.getD 0 JsValue.undefined).isExternal then
      ConstructOutcome.typeErrorThrown "Bad argument, expected raw handle"
    else
      ConstructOutcome.wrapped (externalPayload (args.getD 0 JsValue.undefined))
  else
    ConstructOutcome.forwardedConstruct 0

/-- A wrong argument list for enableDebugger as the claim words it: no
argument, or a first argument that is not a number. -/
def enableDebuggerArgsWrong (args : List JsValue) : Prop :=
  args = [] ∨ ∃ a rest, args = a :: rest ∧ a.isNumber = false

/-- A wrong argument list for createScript as the claim words it:
fewer than two arguments, or a first argument that is neither a string
nor null, or a second argument that is not a string. -/
def createScriptArgsWrong (args : List JsValue) : Prop :=
  args.length < 2 ∨
  ∃ a b rest, args = a :: b :: rest ∧
    ((a.isString = false ∧ a.isNull = false) ∨ b.isString = false)

/-- C6: a bound method invocation with a wrong argument count or a
wrong argument type raises a script-level type error synchronously, no
operation descriptor is created, nothing is scheduled on the
native-world context, and no promise is returned. -/
theorem claim_c6_argument_errors (args brgs : List JsValue)
    (hE : enableDebuggerArgsWrong args)
    (hC : createScriptArgsWrong brgs) :
    ((Session.enableDebugger args).thrown =
        some "Bad argument, expected port number" ∧
      (Session.enableDebugger args).scheduled = [] ∧
      (Session.enableDebugger args).promise = false) ∧
    ((Session.createScript brgs).thrown =
        some "Bad argument, expected string|null and string" ∧
      (Session.createScript brgs).scheduled = [] ∧
      (Session.createScript brgs).promise = false) := by
  constructor
  · rcases hE with rfl | ⟨a, rest, rfl, ha⟩
    · exact ⟨rfl, rfl, rfl⟩
    · simp [Session.enableDebugger, List.getD, ha]
  · rcases hC with hlen | ⟨a, b, rest, rfl, hab⟩
    · have hcond : brgs.length < 2 ∨
          ¬((brgs.getD 0 JsValue.undefined).isString ∨
            (brgs.getD 0 JsValue.undefined).isNull) ∨
          ¬(brgs.getD 1 JsValue.undefined).isString := Or.inl hlen
      rw [Session.createScript]
      rw [if_pos hcond]
      exact ⟨rfl, rfl, rfl⟩
    · have hcond : (a :: b :: rest).length < 2 ∨
          ¬(((a :: b :: rest).getD 0 JsValue.undefined).isString ∨
            ((a :: b :: rest).getD 0 JsValue.undefined).isNull) ∨
          ¬((a :: b :: rest).getD 1 JsValue.undefined).isString := by
        rcases hab with ⟨h1, h2⟩ | h3
        · right; left
          simp [List.getD, h1, h2]
        · right; right
          simp [List.getD, h3]
      rw [Session.createScript]
      rw [if_pos hcond]
      exact ⟨rfl, rfl, rfl⟩

/-- C6, witness: the spec's own scenario, enableDebugger called with
the string not-a-number, and createScript called with two numbers. -/
theorem claim_c6_witness :
    ((Session.enableDebugger [JsValue.str "not-a-number"]).thrown =
        some "Bad argument, expected port number" ∧
      (Session.enableDebugger [JsValue.str "not-a-number"]).scheduled = [] ∧
      (Session.enableDebugger [JsValue.str "not-a-number"]).promise = false) ∧
    ((Session.createScript [JsValue.number 1, JsValue.number 2]).thrown =
        some "Bad argument, expected string|null and string" ∧
      (Session.createScript [JsValue.number 1,
        JsValue.number 2]).scheduled = [] ∧
      (Session.createScript [JsValue.number 1,
        JsValue.number 2]).promise = false) :=
  claim_c6_argument_errors [JsValue.str "not-a-number"]
    [JsValue.number 1, JsValue.number 2]
    (Or.inr ⟨JsValue.str "not-a-number", [], rfl, rfl⟩)
    (Or.inr ⟨JsValue.number 1, JsValue.number 2, [], rfl,
      Or.inl ⟨rfl, rfl⟩⟩)

theorem isExternal_elim {a : JsValue} (h : a.isExternal = true) :
    ∃ p, a = JsValue.external p := by
  cases a <;> simp_all [JsValue.isExternal]

/-- C7: a construct call of the Session constructor whose argument list
is not exactly one External value throws a type error and creates no
wrapper; a wrapper is constructed exactly when the single argument is
an External carrier, and it wraps the carried handle. -/
theorem claim_c7_construct_requires_external (args : List JsValue)
    (h : ¬ ∃ p, args = [JsValue.external p]) :
    Session.construct true args =
      ConstructOutcome.typeErrorThrown "Bad argument, expected raw handle" ∧
    (∀ p, Session.construct true args ≠ ConstructOutcome.wrapped p) ∧
    (∀ p, Session.construct true [JsValue.external p] =
      ConstructOutcome.wrapped p) := by
  have hcond : args.length ≠ 1 ∨
      ¬((args.getD 0 JsValue.undefined).isExternal = true) := by
    by_cases h1 : args.length = 1
    · right
      intro h2
      match args, h1 with
      | [a], _ =>
        obtain ⟨p, rfl⟩ := isExternal_elim (by simpa [List.getD] using h2)
        exact h ⟨p, rfl⟩
    · left
      exact h1
  have herr : Session.construct true args =
      ConstructOutcome.typeErrorThrown "Bad argument, expected raw handle" := by
    rw [Session.construct, if_pos rfl, if_pos hcond]
  refine ⟨herr, ?_, ?_⟩
  · intro p hp
    rw [herr] at hp
    exact ConstructOutcome.noConfusion hp
  · intro p
    rfl

/-- C7, witness: a construct call with no argument throws, and a
construct call with one External argument wraps its payload. -/
theorem claim_c7_witness :
    Session.construct true [] =
      ConstructOutcome.typeErrorThrown "Bad argument, expected raw handle" ∧
    Session.construct true [JsValue.external 7] =
      ConstructOutcome.wrapped 7 :=
  ⟨(claim_c7_construct_requires_external []
      (by rintro ⟨p, hp⟩; cases hp)).1,
   (claim_c7_construct_requires_external []
      (by rintro ⟨p, hp⟩; cases hp)).2.2 7⟩

/-- C9: a call to enableDebugger with a single number argument throws
nothing and schedules an EnableDebuggerOperation whose port is the
argument reduced modulo 2 to the 16 as an unsigned 16-bit value;
values outside 0..65535 wrap silently rather than being rejected. -/
theorem claim_c9_port_wraps (n : Int) :
    (Session.enableDebugger [JsValue.number n]).thrown = none ∧
    (Session.enableDebugger [JsValue.number n]).scheduled =
      [SessionOp.enableDebuggerOp (guint16_cast n)] ∧
    (guint16_cast n : Int) = n % 65536 ∧
    guint16_cast n < 65536 := by
  have h0 : 0 ≤ n % 65536 := Int.emod_nonneg n (by norm_num)
  have h1 : n % 65536 < 65536 := Int.emod_lt_of_pos n (by norm_num)
  refine ⟨rfl, rfl, ?_, ?_⟩
  · simp [guint16_cast, Int.toNat_of_nonneg h0]
  · have := Int.toNat_lt' (n := 65536) (m := n % 65536) (by norm_num)
    simp [guint16_cast]
    omega

/-- C10: createScript accepts null as its name argument: with a null
first argument and a string second argument no type error is raised and
the scheduled operation carries a NULL (none) name, while a string
first argument is passed through as its UTF-8 copy. -/
theorem claim_c10_null_script_name (nm s : String) :
    (Session.createScript [JsValue.null, JsValue.str s]).thrown = none ∧
    (Session.createScript [JsValue.null, JsValue.str s]).scheduled =
      [SessionOp.createScriptOp none s] ∧
    (Session.createScript [JsValue.null, JsValue.str s]).promise = true ∧
    (Session.createScript [JsValue.str nm, JsValue.str s]).thrown = none ∧
    (Session.createScript [JsValue.str nm, JsValue.str s]).scheduled =
      [SessionOp.createScriptOp (some nm) s] :=
  ⟨rfl, rfl, rfl, rfl, rfl⟩

/-!
Runtime ValueToJson and ValueFromJson (runtime.cc).  The runtime
constructor pre-resolves JSON.stringify and JSON.parse from the global
environment; ValueToJson applies the pre-resolved stringify to its
argument and ValueFromJson applies the pre-resolved parse.  The two
engine functions themselves are external to the repository, so they are
embedded as an abstract pair; a value is JSON-round-trippable when the
pair recovers it.
-/

/-- The pre-resolved JSON facility of the script runtime: the stringify
and parse functions captured by the Runtime constructor. -/
structure JsonFacility where
  stringify : JsValue → JsValue
  parse : JsValue → JsValue

/-- Runtime::ValueToJson: call the pre-resolved stringify on value. -/
def ValueToJson (jf : JsonFacility) (value : JsValue) : JsValue :=
  jf.stringify value

/-- Runtime::ValueFromJson: call the pre-resolved parse on json. -/
def ValueFromJson (jf : JsonFacility) (json : JsValue) : JsValue :=
  jf.parse json

/-- A value is JSON-round-trippable when the engine pair recovers it. -/
def JsonRoundTrippable (jf : JsonFacility) (v : JsValue) : Prop :=
  jf.parse (jf.stringify v) = v

/-- A concrete facility encoding boolean values as the strings true
and false, used to witness the round trip. -/
def boolJsonFacility : JsonFacility :=
  JsonFacility.mk
    (fun v =>
      match v with
      | JsValue.boolean b => JsValue.str (if b then "true" else "false")
      | v => v)
    (fun v =>
      match v with
      | JsValue.str s =>
        if s = "true" then JsValue.boolean true
        else if s = "false" then JsValue.boolean false
        else JsValue.str s
      | v => v)

/-- C8: ValueToJson applies the pre-resolved JSON.stringify and
ValueFromJson applies the pre-resolved JSON.parse, and for every
JSON-round-trippable script value their composition is the value
itself. -/
theorem claim_c8_json_round_trip (jf : JsonFacility) (v : JsValue)
    (h : JsonRoundTrippable jf v) :
    ValueToJson jf v = jf.stringify v ∧
    ValueFromJson jf v = jf.parse v ∧
    ValueFromJson jf (ValueToJson jf v) = v :=
  ⟨rfl, rfl, h⟩

/-- C8, witness: the boolean true round-trips through the concrete
boolean-string facility. -/
theorem claim_c8_witness :
    ValueFromJson boolJsonFacility
      (ValueToJson boolJsonFacility (JsValue.boolean true)) =
      JsValue.boolean true :=
  (claim_c8_json_round_trip boolJsonFacility (JsValue.boolean true)
    (by unfold JsonRoundTrippable; rfl)).2.2

/-- C5, witness: the drain property instantiated at a queue holding one
item that re-entrantly schedules another. -/
theorem claim_c5_witness :
    execList (processPendingTrace [Work.mk 0 [Work.mk 1 []]]) =
      processPendingOrder [Work.mk 0 [Work.mk 1 []]] :=
  (claim_c5_drain_loop [Work.mk 0 [Work.mk 1 []]]).2.2.1

/-- C9, witness: enableDebugger with the out-of-range port 70000
schedules a wrapped 16-bit port below 65536. -/
theorem claim_c9_witness :
    (Session.enableDebugger [JsValue.number 70000]).thrown = none ∧
    guint16_cast 70000 < 65536 :=
  ⟨(claim_c9_port_wraps 70000).1, (claim_c9_port_wraps 70000).2.2.2⟩

/-- C10, witness: createScript with a null name and a concrete source
string schedules an operation with a NULL name. -/
theorem claim_c10_witness :
    (Session.createScript [JsValue.null, JsValue.str "code"]).scheduled =
      [SessionOp.createScriptOp none "code"] :=
  (claim_c10_null_script_name "name" "code").2.1

end Frida
